import Mathlib

/-!
Verification of the real-time chat subsystem of the Office-management
backend (Express + Socket.IO + PostgreSQL).

Shallow embedding of:
  * `src/middlewares/authenticateToken.ts` — the HTTP auth gate;
  * `src/index.ts` (io.use) — the Socket.IO handshake gate;
  * `src/routes/chat` (part_005) — the chat router's registered routes;
  * `src/db/schema.sql` — the chats / chat_members / messages tables with
    their foreign keys and ON DELETE CASCADE actions;
  * the chat controller operations (getOrCreateDirectChat, leaveChat,
    markMessagesRead, listMessages, sendMessage), whose source file is not
    present in the repository snapshot; those are modelled from the spec,
    each marked `Modelled from the spec:` in its doc comment.

Machine integers in the source are JS numbers used as ids and timestamps;
they are modelled as `Nat` (no overflow is relevant at these magnitudes).
-/

namespace OfficeChat

abbrev UserId := Nat
abbrev ChatId := Nat
abbrev MsgId := Nat

/-- `user_role` enum of schema.sql line 4. -/
inductive Role where
  | super_admin
  | admin
  | hr
  | manager
  | employee
deriving DecidableEq, Repr

/-- `chat_type` enum of schema.sql line 13. -/
inductive ChatKind where
  | direct
  | group
  | space
  | announcement
deriving DecidableEq, Repr

/-! ## JWT model

The `jsonwebtoken` library is an external collaborator.  A token is its
decoded payload (`generateToken.ts` signs id, email, role, 2FA flag and
sessionId; we keep the fields the gates read) together with a flag saying
whether `jwt.verify` succeeds on it (signature valid and not expired). -/

structure JwtPayload where
  id : UserId
  role : Role
  sessionId : Option Nat
deriving DecidableEq, Repr

structure Token where
  payload : JwtPayload
  sigValid : Bool
deriving DecidableEq, Repr

/-- `jwt.verify(token, secret, cb)`: the callback receives the decoded
payload on success and an error when the signature check or the expiry
check fails. -/
def jwtVerify (t : Token) : Option JwtPayload :=
  if t.sigValid then some t.payload else none

/-! ## HTTP auth gate — src/middlewares/authenticateToken.ts -/

/-- The slice of the `users` table the middleware queries:
`SELECT current_session_id FROM users WHERE id = $1`.
`none` = no row for that id; `some none` = row with NULL
current_session_id; `some (some sid)` = row with a session id. -/
structure Db where
  currentSessionId : UserId → Option (Option Nat)

structure HttpRequest where
  tokenCookie : Option Token

/-- Outcome of the middleware: either a response is sent with a status
(and possibly `res.clearCookie`) and the chain stops, or `next()` runs
with `req.user` set, so the route handler runs. -/
inductive AuthOutcome where
  | reject (status : Nat) (clearedCookie : Bool)
  | accept (user : JwtPayload)
deriving DecidableEq, Repr

/-- `authenticateToken` middleware, authenticateToken.ts lines 6-51:
missing cookie → 401; `jwt.verify` error → 403; for admin / super_admin,
a stored non-NULL `current_session_id` different from the token's
`sessionId` → clearCookie + 401; otherwise `req.user = user; next()`. -/
def authenticateToken (db : Db) (req : HttpRequest) : AuthOutcome :=
  match req.tokenCookie with
  | none => .reject 401 false
  | some t =>
    match jwtVerify t with
    | none => .reject 403 false
    | some user =>
      if user.role = .admin ∨ user.role = .super_admin then
        match db.currentSessionId user.id with
        | some (some dbSid) =>
          if user.sessionId ≠ some dbSid then .reject 401 true
          else .accept user
        | _ => .accept user
      else .accept user

/-- The route handler behind the middleware runs exactly when the
middleware called `next()`. -/
def routeHandlerRuns (db : Db) (req : HttpRequest) : Bool :=
  match authenticateToken db req with
  | .accept _ => true
  | .reject _ _ => false

/-! ## Socket handshake gate — src/index.ts lines 64-87 -/

/-- A Socket.IO handshake: whether a `Cookie` header is present at all,
and the value the regex `token=([^;]+)` extracts from it, if any. -/
structure SocketHandshake where
  hasCookieHeader : Bool
  tokenCookie : Option Token
deriving Repr

/-- The `io.use` middleware of index.ts: no cookie header → error; no
`token=` cookie → error; `jwt.verify` failure → error; otherwise
`socket.data.user = user; next()`.  Note it performs no session check
against the database. -/
def ioUse (hs : SocketHandshake) : Except String JwtPayload :=
  if ¬ hs.hasCookieHeader then .error "Authentication error: No cookies found"
  else
    match hs.tokenCookie with
    | none => .error "Authentication error: Token not found"
    | some t =>
      match jwtVerify t with
      | none => .error "Authentication error: Invalid token"
      | some user => .ok user

/-- Connection state of the gateway, spec section 4.4: a connection that
fails the handshake is disconnected with no room assignment; an accepted
connection is joined to one room per chat of its user. -/
inductive ConnState where
  | rejected
  | connected (user : JwtPayload) (rooms : List ChatId)
deriving DecidableEq, Repr

/-- Socket.IO semantics: a connection is established (and the
`connection` handler that joins rooms and registers event handlers runs)
only when every `io.use` middleware called `next()` without an error.
`memberships` is the room computation of the missing
`handleSocketConnection` (one room per chat the user belongs to). -/
def gatewayConnect (memberships : JwtPayload → List ChatId)
    (hs : SocketHandshake) : ConnState :=
  match ioUse hs with
  | .error _ => .rejected
  | .ok user => .connected user (memberships user)

def roomsOf : ConnState → List ChatId
  | .rejected => []
  | .connected _ rs => rs

/-- Events arriving on a connection are handled by listeners registered
inside the `connection` handler, which never ran for a rejected
connection: a rejected connection's events are never processed. -/
def processedEvents : ConnState → List String → List String
  | .rejected, _ => []
  | .connected _ _, evs => evs

/-! ## Chat router — src/routes/chat (part_005) -/

inductive Method where
  | get
  | post
deriving DecidableEq, Repr

/-- The (method, path) pairs registered on the chat router, part_005
lines 9-18, in registration order.  Paths are router-relative. -/
def chatRouterRoutes : List (Method × String) :=
  [ (.get,  "/"),
    (.get,  "/:chatId/messages"),
    (.post, "/dm"),
    (.get,  "/users"),
    (.post, "/create"),
    (.post, "/mark-read"),
    (.post, "/:chatId/add-members"),
    (.post, "/:chatId/make-admin"),
    (.post, "/:chatId/remove-member"),
    (.post, "/:chatId/leave") ]

/-- `app.use('/api/chats', chatRoutes)`, index.ts line 140. -/
def chatRouterMount : String := "/api/chats"

/-- The REST surface as the spec lists it (section 6), written
router-relative to the spec's `/chats` prefix, with the spec's `{id}`
placeholder rendered as the router's `:chatId`.  `POST /chats` (create)
is router path `/`. -/
def specListedRoutes : List (Method × String) :=
  [ (.get,  "/"),
    (.get,  "/:chatId/messages"),
    (.post, "/dm"),
    (.get,  "/users"),
    (.post, "/"),
    (.post, "/mark-read"),
    (.post, "/:chatId/add-members"),
    (.post, "/:chatId/make-admin"),
    (.post, "/:chatId/remove-member"),
    (.post, "/:chatId/leave") ]

/-- `specListedRoutes` with the one creation route moved to where the
router actually registers it: `POST /create`. -/
def specListedRoutesAmended : List (Method × String) :=
  [ (.get,  "/"),
    (.get,  "/:chatId/messages"),
    (.post, "/dm"),
    (.get,  "/users"),
    (.post, "/create"),
    (.post, "/mark-read"),
    (.post, "/:chatId/add-members"),
    (.post, "/:chatId/make-admin"),
    (.post, "/:chatId/remove-member"),
    (.post, "/:chatId/leave") ]

/-! ## The chat store — src/db/schema.sql lines 140-169

Rows carry the columns of the three chat tables.  Timestamps are `Nat`.
`chats.id` and `messages.id` are SERIAL.  `chat_members` has primary key
(chat_id, user_id), so both are non-null there; `messages.chat_id` and
`messages.sender_id` are nullable columns. -/

structure ChatRow where
  id : ChatId
  kind : ChatKind
  name : Option String
  description : Option String
  createdBy : Option UserId
  createdAt : Nat
  updatedAt : Nat
deriving DecidableEq, Repr

structure MemberRow where
  chatId : ChatId
  userId : UserId
  isAdmin : Bool
  joinedAt : Nat
deriving DecidableEq, Repr

structure MessageRow where
  id : MsgId
  chatId : Option ChatId
  senderId : Option UserId
  content : Option String
  attachmentUrl : Option String
  attachmentType : Option String
  isRead : Bool
  readBy : List UserId
  createdAt : Nat
deriving DecidableEq, Repr

structure Store where
  chats : List ChatRow
  members : List MemberRow
  messages : List MessageRow
deriving DecidableEq, Repr

def chatExists (s : Store) (c : ChatId) : Bool :=
  s.chats.any (fun ch => ch.id == c)

/-- A message row's chat reference, when present, points at an existing
chats row (`messages.chat_id REFERENCES chats(id)`). -/
def msgChatOk (s : Store) (m : MessageRow) : Bool :=
  match m.chatId with
  | some c => chatExists s c
  | none => true

/-- Referential integrity of the chat store: every membership row and
every message row that carries a chat reference points at an existing
chats row. -/
def integrity (s : Store) : Prop :=
  (∀ m ∈ s.members, chatExists s m.chatId = true) ∧
  (∀ m ∈ s.messages, msgChatOk s m = true)

instance (s : Store) : Decidable (integrity s) :=
  inferInstanceAs (Decidable
    ((∀ m ∈ s.members, chatExists s m.chatId = true) ∧
     (∀ m ∈ s.messages, msgChatOk s m = true)))

/-- `DELETE FROM chats WHERE id = c`: the store removes the chat row and,
by the `ON DELETE CASCADE` actions on `chat_members.chat_id` and
`messages.chat_id`, all membership and message rows of that chat, in the
same store action. -/
def deleteChatCascade (s : Store) (c : ChatId) : Store :=
  { chats := s.chats.filter (fun ch => ch.id ≠ c),
    members := s.members.filter (fun m => m.chatId ≠ c),
    messages := s.messages.filter (fun m => m.chatId ≠ some c) }

/-- Store mutations touching the three chat tables. -/
inductive Op where
  | insertChat (row : ChatRow)
  | insertMember (row : MemberRow)
  | insertMessage (row : MessageRow)
  | deleteChat (c : ChatId)
deriving Repr

/-- One store action.  Inserting a membership or message row is subject
to the foreign-key check `REFERENCES chats(id)` (the store refuses the
insert when the referenced chat is missing); deleting a chat cascades. -/
def applyOp (s : Store) : Op → Option Store
  | .insertChat r => some { s with chats := s.chats ++ [r] }
  | .insertMember r =>
    if chatExists s r.chatId then some { s with members := s.members ++ [r] }
    else none
  | .insertMessage r =>
    match r.chatId with
    | some c =>
      if chatExists s c then some { s with messages := s.messages ++ [r] }
      else none
    | none => some { s with messages := s.messages ++ [r] }
  | .deleteChat c => some (deleteChatCascade s c)

/-! ## Chat controller operations

`src/routes/chat` imports these from `../controllers/chatController`, and
`src/index.ts` imports `handleSocketConnection` from the same module; that
module's source file is not part of the repository snapshot, so the
operations below are modelled from the spec (sections 4.1-4.3), over the
store of schema.sql. -/

/-- Error taxonomy, spec section 7. -/
inductive ChatError where
  | NotAMember
  | InsufficientRole
  | InvalidChatKind
  | EmptyMembership
  | MustTransferAdminFirst
  | ReadOnlyChat
  | NotFound
deriving DecidableEq, Repr

/-- Membership join over a member-row list. -/
def hasMemberL (ml : List MemberRow) (c : ChatId) (u : UserId) : Bool :=
  ml.any (fun m => m.chatId == c && m.userId == u)

def hasMember (s : Store) (c : ChatId) (u : UserId) : Bool :=
  hasMemberL s.members c u

def isAdminMember (s : Store) (c : ChatId) (u : UserId) : Bool :=
  s.members.any (fun m => m.chatId == c && m.userId == u && m.isAdmin)

def chatMembers (s : Store) (c : ChatId) : List MemberRow :=
  s.members.filter (fun m => m.chatId == c)

/-- A chats row that is the direct chat of the unordered pair {a, b}:
kind = direct and a membership join on both ids (spec 4.1). -/
def isDirectFor (s : Store) (a b : UserId) (ch : ChatRow) : Bool :=
  ch.kind == .direct && hasMember s ch.id a && hasMember s ch.id b

def findDirectChat (s : Store) (a b : UserId) : Option ChatId :=
  (s.chats.find? (isDirectFor s a b)).map (fun ch => ch.id)

/-- All chats rows that are a direct chat of the pair {a, b}. -/
def directChatsFor (s : Store) (a b : UserId) : List ChatRow :=
  s.chats.filter (isDirectFor s a b)

/-- Next SERIAL value of `chats.id`. -/
def freshChatId (s : Store) : ChatId :=
  s.chats.foldr (fun ch acc => max (ch.id + 1) acc) 0

/-- The chats row a fresh direct-chat insert produces. -/
def newDirectChatRow (s : Store) (a : UserId) (now : Nat) : ChatRow :=
  ⟨freshChatId s, .direct, none, none, some a, now, now⟩

/-- The store after inserting a fresh direct chat of {a, b}: the chats
row plus both membership rows, in one transaction. -/
def createDirectStore (s : Store) (a b : UserId) (now : Nat) : Store :=
  { s with
     chats := s.chats ++ [newDirectChatRow s a now],
     members := s.members
       ++ [⟨freshChatId s, a, false, now⟩, ⟨freshChatId s, b, false, now⟩] }

/-- Modelled from the spec: `getOrCreateDirectChat(userA, userB)`
(chatController, not in the snapshot; spec 4.1) — returns the existing
direct chat of the pair if one exists, otherwise atomically (one
transaction) creates the chats row plus both membership rows.  Each call
is one transaction, so concurrent calls execute in some serial order. -/
def getOrCreateDirectChat (s : Store) (a b : UserId) (now : Nat) :
    ChatId × Store :=
  match findDirectChat s a b with
  | some cid => (cid, s)
  | none => (freshChatId s, createDirectStore s a b now)

/-- Modelled from the spec: `leaveChat(chat, actor)` (chatController, not
in the snapshot; spec 4.1-4.2) — NotFound when the chat is missing,
NotAMember when the actor is not a member; on a direct chat deletes the
whole chat; on a group/space chat fails with MustTransferAdminFirst when
the actor is the sole admin and other members remain, deletes the chat
(and, by cascade, its messages) when the actor is the last member, and
otherwise removes the actor's membership row.  Errors mutate nothing. -/
def leaveChat (s : Store) (cid : ChatId) (actor : UserId) :
    Except ChatError Store :=
  match s.chats.find? (fun ch => ch.id == cid) with
  | none => .error .NotFound
  | some ch =>
    if ¬ hasMember s cid actor then .error .NotAMember
    else if ch.kind = .direct then .ok (deleteChatCascade s cid)
    else if isAdminMember s cid actor
        && ((chatMembers s cid).filter (fun m => m.isAdmin)).all
          (fun m => m.userId == actor)
        && !((chatMembers s cid).filter
          (fun m => m.userId ≠ actor)).isEmpty then
      .error .MustTransferAdminFirst
    else if ((chatMembers s cid).filter
        (fun m => m.userId ≠ actor)).isEmpty then
      .ok (deleteChatCascade s cid)
    else
      .ok { s with
              members := s.members.filter
                (fun m => ¬ (m.chatId == cid && m.userId == actor)) }

/-- Message `m` belongs to chat `cid`, is at or before the `upto`
message, and was not authored by `reader` (SERIAL message ids increase
with the chat order (created_at, id)). -/
def coveredBy (cid : ChatId) (reader : UserId) (upto : MsgId)
    (m : MessageRow) : Bool :=
  m.chatId == some cid && decide (m.id ≤ upto) && m.senderId != some reader

/-- `m` is covered and `reader` is not yet in its read-set. -/
def newlyRead (cid : ChatId) (reader : UserId) (upto : MsgId)
    (m : MessageRow) : Bool :=
  coveredBy cid reader upto m && !(m.readBy.contains reader)

/-- Add `reader` to the read-set of a newly-read covered message;
adding is guarded on absence, so it is idempotent. -/
def markStep (cid : ChatId) (reader : UserId) (upto : MsgId)
    (m : MessageRow) : MessageRow :=
  if newlyRead cid reader upto m then { m with readBy := m.readBy ++ [reader] }
  else m

/-- Modelled from the spec: `markRead(chat, reader, uptoMessage)` for
group/space chats (chatController, not in the snapshot; spec 4.3) — adds
`reader` to the read-set of each message of the chat at or before
`uptoMessage` not authored by `reader`, idempotently; returns the count
of newly-marked messages together with the updated store. -/
def markMessagesRead (s : Store) (cid : ChatId) (reader : UserId)
    (upto : MsgId) : Nat × Store :=
  ((s.messages.filter (newlyRead cid reader upto)).length,
   { s with messages := s.messages.map (markStep cid reader upto) })

/-- `m` counts toward `u`'s unread total of chat `cid`: in the chat, not
authored by `u`, `u` not in its read-set. -/
def unreadPred (cid : ChatId) (u : UserId) (m : MessageRow) : Bool :=
  m.chatId == some cid && m.senderId != some u && !(m.readBy.contains u)

/-- Modelled from the spec: `unreadCount(chat, user)` for group/space
chats (spec 4.3) — messages of the chat not authored by `user` and not
yet read by `user`. -/
def unreadCount (s : Store) (cid : ChatId) (u : UserId) : Nat :=
  (s.messages.filter (unreadPred cid u)).length

/-! ### Message listing and paging (spec 4.1, `listMessages`) -/

/-- The chat order key (created_at, id) of spec section 3 /
idx_messages_chat_time of schema.sql. -/
def msgKey (m : MessageRow) : Nat × Nat := (m.createdAt, m.id)

/-- Strict lexicographic order on keys. -/
def keyLtB (x y : Nat × Nat) : Bool :=
  x.1 < y.1 || (x.1 == y.1 && decide (x.2 < y.2))

def chatMsgs (s : Store) (cid : ChatId) : List MessageRow :=
  s.messages.filter (fun m => m.chatId == some cid)

/-- Insertion into a descending-by-key list. -/
def insertDesc (m : MessageRow) : List MessageRow → List MessageRow
  | [] => [m]
  | x :: xs =>
    if keyLtB (msgKey m) (msgKey x) then x :: insertDesc m xs
    else m :: x :: xs

def sortDesc (l : List MessageRow) : List MessageRow :=
  l.foldr insertDesc []

/-- Modelled from the spec: the full message history of a chat in
descending (created_at, id) order, as served through
idx_messages_chat_time. -/
def chatHistory (s : Store) (cid : ChatId) : List MessageRow :=
  sortDesc (chatMsgs s cid)

/-- The `before` cursor as a predicate: no cursor keeps everything, a
cursor keeps strictly older messages. -/
def curPred : Option (Nat × Nat) → MessageRow → Bool
  | none, _ => true
  | some b, m => keyLtB (msgKey m) b

/-- One page of a descending history: messages older than the cursor,
first `limit` of them. -/
def pageOf (l : List MessageRow) (cur : Option (Nat × Nat)) (limit : Nat) :
    List MessageRow :=
  (l.filter (curPred cur)).take limit

/-- Modelled from the spec: `listMessages(chat, before?, limit)`
(chatController, not in the snapshot; spec 4.1) — a descending page of
the chat's messages older than the `before` cursor (newest page when the
cursor is omitted). -/
def listMessages (s : Store) (cid : ChatId) (before : Option (Nat × Nat))
    (limit : Nat) : List MessageRow :=
  pageOf (chatHistory s cid) before limit

/-- Last element (the page's oldest message, the restart cursor). -/
def lastOf : List MessageRow → Option MessageRow
  | [] => none
  | [x] => some x
  | _ :: x :: xs => lastOf (x :: xs)

/-- Drive paging to exhaustion of a schedule of page sizes, passing each
page's oldest message key as the next `before` cursor; stops at the
first empty page. -/
def pagesFrom (l : List MessageRow) (cur : Option (Nat × Nat)) :
    List Nat → List MessageRow
  | [] => []
  | k :: ks =>
    match lastOf (pageOf l cur k) with
    | none => []
    | some last => pageOf l cur k ++ pagesFrom l (some (msgKey last)) ks

/-- Strictly descending by (created_at, id). -/
def StrictDesc (l : List MessageRow) : Prop :=
  l.Pairwise (fun x y => keyLtB (msgKey y) (msgKey x) = true)

/-- Next SERIAL value of `messages.id`. -/
def freshMsgId (s : Store) : MsgId :=
  s.messages.foldr (fun m acc => max (m.id + 1) acc) 0

/-- Modelled from the spec: `sendMessage(chat, sender,
content|attachment)` (chatController, not in the snapshot; spec 4.3) —
NotFound when the chat is missing, NotAMember when the sender is not a
member, ReadOnlyChat when the chat kind is announcement and the sender
is not an admin; on success persists exactly one message row whose
read-tracking fields start at their schema defaults: `is_read = false`
(the direct-chat flag) and `read_by = []` (the group/space read-set). -/
def sendMessage (s : Store) (cid : ChatId) (sender : UserId)
    (content : Option String) (attachmentUrl : Option String)
    (attachmentType : Option String) (now : Nat) :
    Except ChatError (MessageRow × Store) :=
  match s.chats.find? (fun ch => ch.id == cid) with
  | none => .error .NotFound
  | some ch =>
    if ¬ hasMember s cid sender then .error .NotAMember
    else if ch.kind = .announcement ∧ ¬ isAdminMember s cid sender then
      .error .ReadOnlyChat
    else
      let m : MessageRow :=
        { id := freshMsgId s, chatId := some cid, senderId := some sender,
          content := content, attachmentUrl := attachmentUrl,
          attachmentType := attachmentType, isRead := false, readBy := [],
          createdAt := now }
      .ok (m, { s with messages := s.messages ++ [m] })

/-- Status code of the middleware outcome, `none` when the chain
continued into the route handler. -/
def statusOf : AuthOutcome → Option Nat
  | .reject s _ => some s
  | .accept _ => none

/-! ### Concrete instances used in witnesses and counterexamples -/

def dbEmpty : Db := ⟨fun _ => none⟩

/-- A token that fails `jwt.verify` (expired or tampered). -/
def tokenBad : Token := ⟨⟨1, .employee, none⟩, false⟩

/-- A signature-valid admin token carrying session id 5. -/
def tokenStale : Token := ⟨⟨1, .admin, some 5⟩, true⟩

/-- Database in which user 1's stored current_session_id is 7. -/
def dbSession : Db := ⟨fun u => if u == 1 then some (some 7) else none⟩

def noRooms : JwtPayload → List ChatId := fun _ => []

def chatRow1 : ChatRow := ⟨1, .group, some "Eng", none, some 1, 0, 0⟩

/-- A store with one group chat (admin user 1, plain member user 2) and
one message. -/
def storeEx : Store :=
  { chats := [chatRow1],
    members := [⟨1, 1, true, 0⟩, ⟨1, 2, false, 0⟩],
    messages := [⟨1, some 1, some 1, some "hi", none, none, false, [], 5⟩] }

/-- A store whose only member of the group chat is its admin, user 1. -/
def storeSolo : Store :=
  { chats := [chatRow1],
    members := [⟨1, 1, true, 0⟩],
    messages := [⟨1, some 1, some 1, some "hi", none, none, false, [], 5⟩] }

/-- A store with three messages in chat 1. -/
def storeMsgs : Store :=
  { chats := [chatRow1],
    members := [⟨1, 1, true, 0⟩, ⟨1, 2, false, 0⟩],
    messages :=
      [ ⟨1, some 1, some 1, some "a", none, none, false, [], 1⟩,
        ⟨2, some 1, some 2, some "b", none, none, false, [], 2⟩,
        ⟨3, some 1, some 1, some "c", none, none, false, [], 3⟩ ] }

/-- A store with one announcement chat (admin user 1, plain member
user 2). -/
def storeAnn : Store :=
  { chats := [⟨2, .announcement, some "News", none, some 1, 0, 0⟩],
    members := [⟨2, 1, true, 0⟩, ⟨2, 2, false, 0⟩],
    messages := [] }

end OfficeChat

namespace OfficeChat

/-! ## Theorems -/

theorem chatExists_mem (s : Store) (c : ChatId) :
    chatExists s c = true ↔ ∃ ch ∈ s.chats, ch.id = c := by
  simp [chatExists]

theorem msgChatOk_mono (s s' : Store) (m : MessageRow)
    (h : ∀ c, chatExists s c = true → chatExists s' c = true)
    (hm : msgChatOk s m = true) : msgChatOk s' m = true := by
  unfold msgChatOk at hm ⊢
  cases hc : m.chatId with
  | none => rfl
  | some c => rw [hc] at hm; exact h c hm

theorem chatExists_grow (s : Store) (r : ChatRow) (c : ChatId)
    (h : chatExists s c = true) :
    chatExists { s with chats := s.chats ++ [r] } c = true := by
  simp only [chatExists] at h ⊢
  simp [List.any_append, h]

/-- C1 (counterexample): the claim says a request with a token failing
verification is answered 401; `authenticateToken` answers 403 on a
verification failure, so at this concrete request the claimed status is
wrong (authenticateToken.ts line 15). -/
theorem C1_counterexample :
    statusOf (authenticateToken dbEmpty ⟨some tokenBad⟩) = some 403 ∧
    statusOf (authenticateToken dbEmpty ⟨some tokenBad⟩) ≠ some 401 ∧
    routeHandlerRuns dbEmpty ⟨some tokenBad⟩ = false := by
  refine ⟨rfl, by decide, rfl⟩

/-- C1 (amended): on every chat-router request whose cookie is missing
the middleware answers 401, on every request whose token fails
verification it answers 403, and in both cases the chain stops before
any route handler runs. -/
theorem C1_auth_gate (db : Db) (req : HttpRequest)
    (h : req.tokenCookie = none ∨
      ∃ t, req.tokenCookie = some t ∧ t.sigValid = false) :
    (req.tokenCookie = none →
      authenticateToken db req = .reject 401 false) ∧
    (∀ t, req.tokenCookie = some t → t.sigValid = false →
      authenticateToken db req = .reject 403 false) ∧
    routeHandlerRuns db req = false := by
  rcases h with h | ⟨t, ht, hbad⟩
  · refine ⟨fun _ => ?_, fun t hsome _ => ?_, ?_⟩
    · simp [authenticateToken, h]
    · rw [h] at hsome; cases hsome
    · simp [routeHandlerRuns, authenticateToken, h]
  · refine ⟨fun hnone => ?_, fun t' hsome hbad' => ?_, ?_⟩
    · rw [ht] at hnone; cases hnone
    · rw [ht] at hsome
      injection hsome with he
      subst he
      simp [authenticateToken, ht, jwtVerify, hbad]
    · simp [routeHandlerRuns, authenticateToken, ht, jwtVerify, hbad]

theorem C1_auth_gate_witness :
    ((some tokenBad : Option Token) = none ∨
      ∃ t, (some tokenBad : Option Token) = some t ∧ t.sigValid = false) ∧
    ((HttpRequest.mk (some tokenBad)).tokenCookie = none →
      authenticateToken dbEmpty ⟨some tokenBad⟩ = .reject 401 false) ∧
    (∀ t, (HttpRequest.mk (some tokenBad)).tokenCookie = some t →
      t.sigValid = false →
      authenticateToken dbEmpty ⟨some tokenBad⟩ = .reject 403 false) ∧
    routeHandlerRuns dbEmpty ⟨some tokenBad⟩ = false :=
  ⟨Or.inr ⟨tokenBad, rfl, rfl⟩,
   C1_auth_gate dbEmpty ⟨some tokenBad⟩ (Or.inr ⟨tokenBad, rfl, rfl⟩)⟩

/-- C2 (confirmed): a socket handshake that carries no token cookie, or
a token failing JWT verification, is rejected by the `io.use` gate of
index.ts: the connection is never established, is placed in no room, and
none of its events is ever processed. -/
theorem C2_socket_reject (ms : JwtPayload → List ChatId)
    (hs : SocketHandshake)
    (h : hs.tokenCookie = none ∨
      ∃ t, hs.tokenCookie = some t ∧ t.sigValid = false) :
    gatewayConnect ms hs = .rejected ∧
    roomsOf (gatewayConnect ms hs) = [] ∧
    (∀ evs, processedEvents (gatewayConnect ms hs) evs = []) := by
  have hrej : gatewayConnect ms hs = .rejected := by
    rcases h with h | ⟨t, ht, hbad⟩
    · cases hh : hs.hasCookieHeader <;>
        simp [gatewayConnect, ioUse, jwtVerify, h, hh]
    · cases hh : hs.hasCookieHeader <;>
        simp [gatewayConnect, ioUse, jwtVerify, ht, hbad, hh]
  exact ⟨hrej, by rw [hrej]; rfl, fun evs => by rw [hrej]; rfl⟩

theorem C2_socket_reject_witness :
    ((SocketHandshake.mk true (some tokenBad)).tokenCookie = none ∨
      ∃ t, (SocketHandshake.mk true (some tokenBad)).tokenCookie = some t ∧
        t.sigValid = false) ∧
    gatewayConnect noRooms ⟨true, some tokenBad⟩ = .rejected ∧
    roomsOf (gatewayConnect noRooms ⟨true, some tokenBad⟩) = [] ∧
    (∀ evs, processedEvents (gatewayConnect noRooms ⟨true, some tokenBad⟩) evs = []) :=
  ⟨Or.inr ⟨tokenBad, rfl, rfl⟩,
   C2_socket_reject noRooms ⟨true, some tokenBad⟩ (Or.inr ⟨tokenBad, rfl, rfl⟩)⟩

/-- C3 (counterexample): the spec's `POST /chats` (create group/space),
router-relative `POST /`, is not among the routes the chat router
registers — part_005 line 13 registers the creation handler at
`POST /create` instead. -/
theorem C3_counterexample :
    (Method.post, "/") ∈ specListedRoutes ∧
    (Method.post, "/") ∉ chatRouterRoutes := by
  constructor
  · decide
  · decide

/-- C3 (amended): with the creation route read as `POST /create`, the
listed surface and the registered surface coincide pair for pair, and
the router is mounted at `/api/chats`. -/
theorem C3_rest_surface :
    (∀ p ∈ specListedRoutesAmended, p ∈ chatRouterRoutes) ∧
    (∀ p ∈ chatRouterRoutes, p ∈ specListedRoutesAmended) ∧
    chatRouterMount = "/api/chats" := by
  refine ⟨by decide, by decide, rfl⟩

/-- C9 (confirmed): the two gates accept different token sets.  A
signature-valid admin or super_admin token whose embedded sessionId
differs from the stored current_session_id is answered 401 with the
cookie cleared by the HTTP middleware, while the socket handshake —
which checks only JWT validity — accepts the very same token and
establishes the connection. -/
theorem C9_gates_differ (db : Db) (t : Token)
    (ms : JwtPayload → List ChatId) (dbSid : Nat)
    (hrole : t.payload.role = .admin ∨ t.payload.role = .super_admin)
    (hsig : t.sigValid = true)
    (hdb : db.currentSessionId t.payload.id = some (some dbSid))
    (hmm : t.payload.sessionId ≠ some dbSid) :
    authenticateToken db ⟨some t⟩ = .reject 401 true ∧
    gatewayConnect ms ⟨true, some t⟩ =
      .connected t.payload (ms t.payload) := by
  constructor
  · simp only [authenticateToken, jwtVerify, hsig, if_true]
    rw [if_pos hrole, hdb]
    simp [hmm]
  · simp [gatewayConnect, ioUse, jwtVerify, hsig]

theorem C9_gates_differ_witness :
    (tokenStale.payload.role = .admin ∨
      tokenStale.payload.role = .super_admin) ∧
    tokenStale.sigValid = true ∧
    dbSession.currentSessionId tokenStale.payload.id = some (some 7) ∧
    tokenStale.payload.sessionId ≠ some 7 ∧
    authenticateToken dbSession ⟨some tokenStale⟩ = .reject 401 true ∧
    gatewayConnect noRooms ⟨true, some tokenStale⟩ =
      .connected tokenStale.payload (noRooms tokenStale.payload) := by
  refine ⟨Or.inl rfl, rfl, rfl, by decide, ?_⟩
  exact C9_gates_differ dbSession tokenStale noRooms 7
    (Or.inl rfl) rfl rfl (by decide)

/-- C10 (confirmed): every store action preserves referential integrity
of the chat store: membership and message rows only ever reference
existing chats rows — inserts are foreign-key-checked, and deleting a
chat removes its membership and message rows in the same action
(`ON DELETE CASCADE`, schema.sql lines 150-169). -/
theorem C10_integrity_preserved (s s' : Store) (op : Op)
    (hs : integrity s) (happ : applyOp s op = some s') : integrity s' := by
  obtain ⟨hmem, hmsg⟩ := hs
  cases op with
  | insertChat r =>
    simp only [applyOp, Option.some.injEq] at happ
    subst happ
    constructor
    · intro m hm
      exact chatExists_grow s r m.chatId (hmem m hm)
    · intro m hm
      exact msgChatOk_mono s _ m (fun c h => chatExists_grow s r c h)
        (hmsg m hm)
  | insertMember r =>
    simp only [applyOp] at happ
    split at happ
    · next hex =>
      rw [Option.some.injEq] at happ
      subst happ
      constructor
      · intro m hm
        rw [List.mem_append] at hm
        rcases hm with hm | hm
        · exact hmem m hm
        · rw [List.mem_singleton] at hm
          subst hm
          exact hex
      · intro m hm
        exact hmsg m hm
    · cases happ
  | insertMessage r =>
    simp only [applyOp] at happ
    split at happ
    · next c heq =>
      split at happ
      · next hex =>
        rw [Option.some.injEq] at happ
        subst happ
        constructor
        · intro m hm
          exact hmem m hm
        · intro m hm
          rw [List.mem_append] at hm
          rcases hm with hm | hm
          · exact hmsg m hm
          · rw [List.mem_singleton] at hm
            subst hm
            unfold msgChatOk
            rw [heq]
            exact hex
      · cases happ
    · next heq =>
      rw [Option.some.injEq] at happ
      subst happ
      constructor
      · intro m hm
        exact hmem m hm
      · intro m hm
        rw [List.mem_append] at hm
        rcases hm with hm | hm
        · exact hmsg m hm
        · rw [List.mem_singleton] at hm
          subst hm
          unfold msgChatOk
          rw [heq]
  | deleteChat c =>
    simp only [applyOp, Option.some.injEq] at happ
    subst happ
    constructor
    · intro m hm
      rw [deleteChatCascade, List.mem_filter] at hm
      obtain ⟨hm, hne⟩ := hm
      rw [decide_eq_true_eq] at hne
      obtain ⟨ch, hch, hid⟩ := (chatExists_mem s m.chatId).mp (hmem m hm)
      refine (chatExists_mem _ m.chatId).mpr ⟨ch, ?_, hid⟩
      rw [deleteChatCascade]
      rw [List.mem_filter]
      refine ⟨hch, ?_⟩
      rw [decide_eq_true_eq, hid]
      exact hne
    · intro m hm
      rw [deleteChatCascade, List.mem_filter] at hm
      obtain ⟨hm, hne⟩ := hm
      rw [decide_eq_true_eq] at hne
      unfold msgChatOk
      cases hc : m.chatId with
      | none => rfl
      | some c' =>
        have hold : chatExists s c' = true := by
          have := hmsg m hm
          unfold msgChatOk at this
          rw [hc] at this
          exact this
        obtain ⟨ch, hch, hid⟩ := (chatExists_mem s c').mp hold
        refine (chatExists_mem _ c').mpr ⟨ch, ?_, hid⟩
        rw [deleteChatCascade]
        rw [List.mem_filter]
        refine ⟨hch, ?_⟩
        rw [decide_eq_true_eq, hid]
        intro hcc
        apply hne
        rw [hc, hcc]

theorem chatExists_delete (s : Store) (cid : ChatId) :
    chatExists (deleteChatCascade s cid) cid = false := by
  rw [Bool.eq_false_iff]
  intro h
  obtain ⟨ch, hch, hid⟩ := (chatExists_mem _ _).mp h
  simp only [deleteChatCascade] at hch
  rw [List.mem_filter, decide_eq_true_eq] at hch
  exact hch.2 hid

theorem members_delete (s : Store) (cid : ChatId) :
    (deleteChatCascade s cid).members.all (fun m => m.chatId ≠ cid) = true := by
  rw [List.all_eq_true]
  intro m hm
  simp only [deleteChatCascade] at hm
  rw [List.mem_filter] at hm
  exact hm.2

theorem messages_delete (s : Store) (cid : ChatId) :
    (deleteChatCascade s cid).messages.all
      (fun m => m.chatId ≠ some cid) = true := by
  rw [List.all_eq_true]
  intro m hm
  simp only [deleteChatCascade] at hm
  rw [List.mem_filter] at hm
  exact hm.2

/-- C5 (confirmed): on a group/space chat whose admin set is exactly
{a1}, `leaveChat(a1)` fails with MustTransferAdminFirst (mutating
nothing) while at least one other member remains, and succeeds — deleting
the chat row and, by cascade, every membership and message row of the
chat — when a1 is the only remaining member. -/
theorem C5_leaveChat_sole_admin (s : Store) (cid : ChatId) (a1 : UserId)
    (ch : ChatRow)
    (hfind : s.chats.find? (fun c => c.id == cid) = some ch)
    (hkind : ch.kind = .group ∨ ch.kind = .space)
    (hmem : hasMember s cid a1 = true)
    (hadmin : isAdminMember s cid a1 = true)
    (hsole : ((chatMembers s cid).filter (fun m => m.isAdmin)).all
      (fun m => m.userId == a1) = true) :
    ((∃ m ∈ chatMembers s cid, m.userId ≠ a1) →
      leaveChat s cid a1 = .error .MustTransferAdminFirst) ∧
    ((∀ m ∈ chatMembers s cid, m.userId = a1) →
      leaveChat s cid a1 = .ok (deleteChatCascade s cid) ∧
      chatExists (deleteChatCascade s cid) cid = false ∧
      (deleteChatCascade s cid).members.all (fun m => m.chatId ≠ cid) = true ∧
      (deleteChatCascade s cid).messages.all
        (fun m => m.chatId ≠ some cid) = true) := by
  have hdir : ¬ ch.kind = ChatKind.direct := by
    rcases hkind with h | h <;> rw [h] <;> intro hc <;> cases hc
  constructor
  · rintro ⟨m, hm, hne⟩
    have hmo : m ∈ (chatMembers s cid).filter (fun m => m.userId ≠ a1) :=
      List.mem_filter.mpr ⟨hm, by rw [decide_eq_true_eq]; exact hne⟩
    have hne2 : ((chatMembers s cid).filter
        (fun m => m.userId ≠ a1)).isEmpty = false := by
      cases hl : (chatMembers s cid).filter (fun m => m.userId ≠ a1) with
      | nil => rw [hl] at hmo; cases hmo
      | cons a l => rfl
    have hcond : (isAdminMember s cid a1
        && ((chatMembers s cid).filter (fun m => m.isAdmin)).all
          (fun m => m.userId == a1)
        && !((chatMembers s cid).filter
          (fun m => m.userId ≠ a1)).isEmpty) = true := by
      rw [hadmin, hsole, hne2]
      rfl
    unfold leaveChat
    split
    · next heq => rw [hfind] at heq; cases heq
    · next c heq =>
      rw [hfind] at heq
      injection heq with heq
      subst heq
      rw [if_neg (not_not_intro hmem), if_neg hdir, if_pos hcond]
  · intro hall
    have hemp : ((chatMembers s cid).filter
        (fun m => m.userId ≠ a1)).isEmpty = true := by
      cases hl : (chatMembers s cid).filter (fun m => m.userId ≠ a1) with
      | nil => rfl
      | cons a l =>
        have ha : a ∈ (chatMembers s cid).filter (fun m => m.userId ≠ a1) := by
          rw [hl]; exact List.mem_cons_self a l
        rw [List.mem_filter, decide_eq_true_eq] at ha
        exact absurd (hall a ha.1) ha.2
    have hcond : (isAdminMember s cid a1
        && ((chatMembers s cid).filter (fun m => m.isAdmin)).all
          (fun m => m.userId == a1)
        && !((chatMembers s cid).filter
          (fun m => m.userId ≠ a1)).isEmpty) = false := by
      rw [hemp]
      simp
    refine ⟨?_, chatExists_delete s cid, members_delete s cid,
      messages_delete s cid⟩
    unfold leaveChat
    split
    · next heq => rw [hfind] at heq; cases heq
    · next c heq =>
      rw [hfind] at heq
      injection heq with heq
      subst heq
      rw [if_neg (not_not_intro hmem), if_neg hdir,
        if_neg (by rw [hcond]; exact Bool.false_ne_true), if_pos hemp]

theorem C5_leaveChat_sole_admin_witness :
    storeEx.chats.find? (fun c => c.id == 1) = some chatRow1 ∧
    (chatRow1.kind = .group ∨ chatRow1.kind = .space) ∧
    hasMember storeEx 1 1 = true ∧
    isAdminMember storeEx 1 1 = true ∧
    ((chatMembers storeEx 1).filter (fun m => m.isAdmin)).all
      (fun m => m.userId == 1) = true ∧
    leaveChat storeEx 1 1 = .error .MustTransferAdminFirst :=
  ⟨rfl, Or.inl rfl, rfl, rfl, rfl,
   (C5_leaveChat_sole_admin storeEx 1 1 chatRow1 rfl (Or.inl rfl) rfl rfl
     rfl).1 ⟨⟨1, 2, false, 0⟩, by decide, by decide⟩⟩

/-- C8 (confirmed): `sendMessage` fails with NotAMember when the sender
is not a member of the chat, fails with ReadOnlyChat when the chat is an
announcement chat and the member sender is not an admin, and on success
appends exactly one message row whose read state starts at the defaults:
empty read-set (the group/space shape) and `is_read = false` (the direct
shape). -/
theorem C8_sendMessage (s : Store) (cid : ChatId) (sender : UserId)
    (content attachmentUrl attachmentType : Option String) (now : Nat)
    (ch : ChatRow)
    (hfind : s.chats.find? (fun c => c.id == cid) = some ch) :
    (hasMember s cid sender = false →
      sendMessage s cid sender content attachmentUrl attachmentType now
        = .error .NotAMember) ∧
    (hasMember s cid sender = true → ch.kind = .announcement →
      isAdminMember s cid sender = false →
      sendMessage s cid sender content attachmentUrl attachmentType now
        = .error .ReadOnlyChat) ∧
    (∀ m s', sendMessage s cid sender content attachmentUrl attachmentType
        now = .ok (m, s') →
      s'.messages = s.messages ++ [m] ∧ s'.chats = s.chats ∧
      s'.members = s.members ∧ m.readBy = [] ∧ m.isRead = false ∧
      m.chatId = some cid ∧ m.senderId = some sender) := by
  refine ⟨?_, ?_, ?_⟩
  · intro h
    unfold sendMessage
    rw [hfind]
    simp [h]
  · intro h1 h2 h3
    unfold sendMessage
    rw [hfind]
    simp [h1, h2, h3]
  · intro m s' hok
    unfold sendMessage at hok
    rw [hfind] at hok
    split at hok
    · cases hok
    · split at hok
      · cases hok
      · split at hok
        · cases hok
        · simp only [Except.ok.injEq, Prod.mk.injEq] at hok
          obtain ⟨hm, hs⟩ := hok
          subst hm
          subst hs
          exact ⟨rfl, rfl, rfl, rfl, rfl, rfl, rfl⟩

theorem C8_sendMessage_witness :
    storeAnn.chats.find? (fun c => c.id == 2)
      = some ⟨2, .announcement, some "News", none, some 1, 0, 0⟩ ∧
    hasMember storeAnn 2 2 = true ∧
    isAdminMember storeAnn 2 2 = false ∧
    sendMessage storeAnn 2 2 (some "x") none none 9 = .error .ReadOnlyChat :=
  ⟨rfl, rfl, rfl,
   (C8_sendMessage storeAnn 2 2 (some "x") none none 9
     ⟨2, .announcement, some "News", none, some 1, 0, 0⟩ rfl).2.1
     rfl rfl rfl⟩

theorem contains_append_self (l : List UserId) (r : UserId) :
    (l ++ [r]).contains r = true := by
  induction l with
  | nil => simp
  | cons x xs ih => simp [ih]

theorem contains_append_other (l : List UserId) (r u : UserId) (h : u ≠ r) :
    (l ++ [r]).contains u = l.contains u := by
  induction l with
  | nil => simp [h]
  | cons x xs ih => simp only [List.cons_append, List.contains_cons, ih]

theorem coveredBy_markStep (cid : ChatId) (r : UserId) (upto : MsgId)
    (m : MessageRow) :
    coveredBy cid r upto (markStep cid r upto m) = coveredBy cid r upto m := by
  unfold markStep
  split
  · rfl
  · rfl

theorem newlyRead_markStep (cid : ChatId) (r : UserId) (upto : MsgId)
    (m : MessageRow) :
    newlyRead cid r upto (markStep cid r upto m) = false := by
  by_cases h : newlyRead cid r upto m = true
  · rw [markStep, if_pos h]
    rw [newlyRead] at h ⊢
    rw [Bool.and_eq_true] at h
    have hc : coveredBy cid r upto { m with readBy := m.readBy ++ [r] }
        = coveredBy cid r upto m := rfl
    rw [hc, h.1]
    simp [contains_append_self]
  · rw [Bool.not_eq_true] at h
    rw [markStep, h]
    simp only [Bool.false_eq_true, if_false]
    exact h

theorem markStep_of_not_new (cid : ChatId) (r : UserId) (upto : MsgId)
    (m : MessageRow) (h : newlyRead cid r upto m = false) :
    markStep cid r upto m = m := by
  rw [markStep, h]
  simp

theorem markStep_idem (cid : ChatId) (r : UserId) (upto : MsgId)
    (m : MessageRow) :
    markStep cid r upto (markStep cid r upto m) = markStep cid r upto m :=
  markStep_of_not_new cid r upto _ (newlyRead_markStep cid r upto m)

theorem map_markStep_idem (cid : ChatId) (r : UserId) (upto : MsgId)
    (l : List MessageRow) :
    (l.map (markStep cid r upto)).map (markStep cid r upto)
      = l.map (markStep cid r upto) := by
  induction l with
  | nil => rfl
  | cons x xs ih => simp only [List.map_cons, markStep_idem, ih]

theorem filter_newlyRead_markStep (cid : ChatId) (r : UserId) (upto : MsgId)
    (l : List MessageRow) :
    (l.map (markStep cid r upto)).filter (newlyRead cid r upto) = [] := by
  induction l with
  | nil => rfl
  | cons x xs ih =>
    simp only [List.map_cons, List.filter_cons, newlyRead_markStep, ih]
    rfl

theorem unreadPred_of_newlyRead (cid : ChatId) (r : UserId) (upto : MsgId)
    (m : MessageRow) (h : newlyRead cid r upto m = true) :
    unreadPred cid r m = true := by
  rw [newlyRead, coveredBy] at h
  simp only [Bool.and_eq_true] at h
  rw [unreadPred, h.1.1.1, h.1.2, h.2]
  rfl

theorem unreadPred_markStep (cid : ChatId) (r : UserId) (upto : MsgId)
    (m : MessageRow) :
    unreadPred cid r (markStep cid r upto m)
      = (unreadPred cid r m && !(newlyRead cid r upto m)) := by
  by_cases h : newlyRead cid r upto m = true
  · rw [markStep, if_pos h, h]
    have hu : unreadPred cid r { m with readBy := m.readBy ++ [r] }
        = (m.chatId == some cid && m.senderId != some r
            && !((m.readBy ++ [r]).contains r)) := rfl
    rw [hu, contains_append_self]
    simp
  · rw [Bool.not_eq_true] at h
    rw [markStep_of_not_new cid r upto m h, h]
    simp

theorem unreadPred_markStep_other (cid : ChatId) (r u : UserId)
    (upto : MsgId) (m : MessageRow) (h : u ≠ r) :
    unreadPred cid u (markStep cid r upto m) = unreadPred cid u m := by
  by_cases hn : newlyRead cid r upto m = true
  · rw [markStep, if_pos hn]
    have hu : unreadPred cid u { m with readBy := m.readBy ++ [r] }
        = (m.chatId == some cid && m.senderId != some u
            && !((m.readBy ++ [r]).contains u)) := rfl
    rw [hu, contains_append_other m.readBy r u h]
    rfl
  · rw [Bool.not_eq_true] at hn
    rw [markStep_of_not_new cid r upto m hn]

theorem unread_split (cid : ChatId) (r : UserId) (upto : MsgId)
    (l : List MessageRow) :
    (l.filter (unreadPred cid r)).length
      = ((l.map (markStep cid r upto)).filter (unreadPred cid r)).length
        + (l.filter (newlyRead cid r upto)).length := by
  induction l with
  | nil => rfl
  | cons x xs ih =>
    simp only [List.map_cons, List.filter_cons, unreadPred_markStep]
    by_cases hx : newlyRead cid r upto x = true
    · rw [hx, unreadPred_of_newlyRead cid r upto x hx]
      simp only [Bool.not_true, Bool.and_false, Bool.false_eq_true,
        if_false, if_true, List.length_cons]
      omega
    · rw [Bool.not_eq_true] at hx
      rw [hx]
      by_cases hu : unreadPred cid r x = true
      · rw [hu]
        simp only [Bool.not_false, Bool.and_true, Bool.true_and, if_true,
          Bool.false_eq_true, if_false, List.length_cons]
        omega
      · rw [Bool.not_eq_true] at hu
        rw [hu]
        simp only [Bool.not_false, Bool.and_true, Bool.false_eq_true,
          if_false]
        omega

theorem unread_other_unchanged (cid : ChatId) (r u : UserId) (upto : MsgId)
    (l : List MessageRow) (h : u ≠ r) :
    ((l.map (markStep cid r upto)).filter (unreadPred cid u)).length
      = (l.filter (unreadPred cid u)).length := by
  induction l with
  | nil => rfl
  | cons x xs ih =>
    simp only [List.map_cons, List.filter_cons,
      unreadPred_markStep_other cid r u upto x h]
    by_cases hu : unreadPred cid u x = true
    · rw [hu]
      simp only [if_true, List.length_cons, ih]
    · rw [Bool.not_eq_true] at hu
      rw [hu]
      simp only [Bool.false_eq_true, if_false, ih]

/-- C6 (confirmed): `markRead` is idempotent per (chat, reader,
uptoMessage): applying it a second time changes nothing and newly marks
zero messages; and each user's unread count decreases by exactly the
number of distinct messages newly marked for that user (the reader) and
by zero for everyone else — a message already read by the reader is
never double-counted. -/
theorem C6_markRead_idempotent (s : Store) (cid : ChatId) (r : UserId)
    (upto : MsgId) :
    (markMessagesRead (markMessagesRead s cid r upto).2 cid r upto).2
      = (markMessagesRead s cid r upto).2 ∧
    (markMessagesRead (markMessagesRead s cid r upto).2 cid r upto).1 = 0 ∧
    (∀ u, unreadCount s cid u
      = unreadCount (markMessagesRead s cid r upto).2 cid u
        + (if u = r then (markMessagesRead s cid r upto).1 else 0)) := by
  refine ⟨?_, ?_, ?_⟩
  · simp only [markMessagesRead]
    rw [map_markStep_idem]
  · simp only [markMessagesRead]
    rw [filter_newlyRead_markStep]
    rfl
  · intro u
    by_cases hu : u = r
    · subst hu
      simp only [markMessagesRead, unreadCount, if_pos rfl]
      exact unread_split cid u upto s.messages
    · simp only [markMessagesRead, unreadCount, if_neg hu]
      rw [unread_other_unchanged cid r u upto s.messages hu]
      omega

theorem find?_congruent {α : Type} (p q : α → Bool) (l : List α)
    (h : ∀ a, p a = q a) : l.find? p = l.find? q := by
  induction l with
  | nil => rfl
  | cons x xs ih => simp only [List.find?_cons, h x, ih]

theorem find?_append_none {α : Type} (p : α → Bool) (l₁ l₂ : List α)
    (h : l₁.find? p = none) : (l₁ ++ l₂).find? p = l₂.find? p := by
  induction l₁ with
  | nil => rfl
  | cons x xs ih =>
    cases hpx : p x
    · simp only [List.find?_cons, hpx] at h
      simp only [List.cons_append, List.find?_cons, hpx]
      exact ih h
    · simp only [List.find?_cons, hpx] at h
      cases h

theorem isDirectFor_comm (s : Store) (x y : UserId) (ch : ChatRow) :
    isDirectFor s x y ch = isDirectFor s y x ch := by
  unfold isDirectFor
  cases hk : (ch.kind == ChatKind.direct) <;>
    cases hx : hasMember s ch.id x <;>
    cases hy : hasMember s ch.id y <;> rfl

theorem findDirectChat_comm (s : Store) (x y : UserId) :
    findDirectChat s x y = findDirectChat s y x := by
  unfold findDirectChat
  rw [find?_congruent (isDirectFor s x y) (isDirectFor s y x) s.chats
    (isDirectFor_comm s x y)]

theorem lt_freshId_list (l : List ChatRow) :
    ∀ ch ∈ l, ch.id < l.foldr (fun ch acc => max (ch.id + 1) acc) 0 := by
  induction l with
  | nil => intro ch h; cases h
  | cons x xs ih =>
    intro ch h
    rw [List.mem_cons] at h
    rw [List.foldr_cons]
    rcases h with h | h
    · subst h
      exact lt_of_lt_of_le (Nat.lt_succ_self _) (le_max_left _ _)
    · exact lt_of_lt_of_le (ih ch h) (le_max_right _ _)

theorem lt_freshChatId (s : Store) :
    ∀ ch ∈ s.chats, ch.id < freshChatId s :=
  lt_freshId_list s.chats

theorem hasMember_create (s : Store) (a b : UserId) (now : Nat)
    (c : ChatId) (u : UserId) (hc : c ≠ freshChatId s) :
    hasMember (createDirectStore s a b now) c u = hasMember s c u := by
  have hbeq : (freshChatId s == c) = false := by
    rw [beq_eq_false_iff_ne]
    exact fun hh => hc hh.symm
  simp [hasMember, hasMemberL, createDirectStore, List.any_append, hbeq]

theorem isDirectFor_create_old (s : Store) (a b x y : UserId) (now : Nat)
    (ch : ChatRow) (hch : ch ∈ s.chats) :
    isDirectFor (createDirectStore s a b now) x y ch
      = isDirectFor s x y ch := by
  have hne : ch.id ≠ freshChatId s := Nat.ne_of_lt (lt_freshChatId s ch hch)
  unfold isDirectFor
  rw [hasMember_create s a b now ch.id x hne,
    hasMember_create s a b now ch.id y hne]

theorem isDirectFor_create_new (s : Store) (a b : UserId) (now : Nat) :
    isDirectFor (createDirectStore s a b now) a b
      (newDirectChatRow s a now) = true := by
  simp [isDirectFor, newDirectChatRow, hasMember, hasMemberL,
    createDirectStore, List.any_append]

theorem findDirectChat_create (s : Store) (a b : UserId) (now : Nat)
    (hnone : findDirectChat s a b = none) :
    findDirectChat (createDirectStore s a b now) a b
      = some (freshChatId s) := by
  have hfnone : s.chats.find? (isDirectFor s a b) = none := by
    unfold findDirectChat at hnone
    exact Option.map_eq_none'.mp hnone
  have hall : ∀ ch ∈ s.chats, ¬ (isDirectFor s a b ch = true) :=
    List.find?_eq_none.mp hfnone
  have hpre : s.chats.find?
      (isDirectFor (createDirectStore s a b now) a b) = none := by
    rw [List.find?_eq_none]
    intro ch hch
    rw [isDirectFor_create_old s a b a b now ch hch]
    exact hall ch hch
  unfold findDirectChat
  have hchats : (createDirectStore s a b now).chats
      = s.chats ++ [newDirectChatRow s a now] := rfl
  rw [hchats,
    find?_append_none (isDirectFor (createDirectStore s a b now) a b)
      s.chats [newDirectChatRow s a now] hpre]
  have hone : List.find? (isDirectFor (createDirectStore s a b now) a b)
      [newDirectChatRow s a now] = some (newDirectChatRow s a now) := by
    simp only [List.find?_cons, isDirectFor_create_new s a b now]
  rw [hone]
  rfl

theorem directChatsFor_create (s : Store) (a b : UserId) (now : Nat)
    (hnone : findDirectChat s a b = none) :
    directChatsFor (createDirectStore s a b now) a b
      = [newDirectChatRow s a now] := by
  have hfnone : s.chats.find? (isDirectFor s a b) = none := by
    unfold findDirectChat at hnone
    exact Option.map_eq_none'.mp hnone
  have hall : ∀ ch ∈ s.chats, ¬ (isDirectFor s a b ch = true) :=
    List.find?_eq_none.mp hfnone
  unfold directChatsFor
  have hchats : (createDirectStore s a b now).chats
      = s.chats ++ [newDirectChatRow s a now] := rfl
  rw [hchats, List.filter_append]
  have h1 : s.chats.filter
      (isDirectFor (createDirectStore s a b now) a b) = [] := by
    rw [List.filter_eq_nil_iff]
    intro ch hch
    rw [isDirectFor_create_old s a b a b now ch hch]
    exact hall ch hch
  rw [h1]
  simp only [List.filter_cons, isDirectFor_create_new s a b now,
    if_true, List.nil_append]
  rfl

theorem directChatsFor_found (s : Store) (a b : UserId) (ch0 : ChatRow)
    (hfind : s.chats.find? (isDirectFor s a b) = some ch0)
    (hdedup : (directChatsFor s a b).length ≤ 1) :
    directChatsFor s a b = [ch0] := by
  have hmem : ch0 ∈ directChatsFor s a b :=
    List.mem_filter.mpr
      ⟨List.mem_of_find?_eq_some hfind, List.find?_some hfind⟩
  have hlen : (directChatsFor s a b).length = 1 := by
    have h1 : 0 < (directChatsFor s a b).length :=
      List.length_pos.mpr (List.ne_nil_of_mem hmem)
    omega
  obtain ⟨x, hx⟩ := List.length_eq_one.mp hlen
  rw [hx] at hmem ⊢
  rw [List.mem_singleton] at hmem
  rw [hmem]

/-- C4 (confirmed): two calls to `getOrCreateDirectChat` for the pair
{a, b} — the second in either argument order, modelling a concurrent
call from the other end serialized after the first — return the same
chat id, the second call mutates nothing, and afterwards exactly one
chats row with kind direct joined to both a and b exists, and its id is
the returned one. -/
theorem C4_direct_chat_converges (s : Store) (a b : UserId) (n1 n2 : Nat)
    (_hab : a ≠ b)
    (hdedup : (directChatsFor s a b).length ≤ 1) :
    (getOrCreateDirectChat (getOrCreateDirectChat s a b n1).2 b a n2).1
      = (getOrCreateDirectChat s a b n1).1 ∧
    (getOrCreateDirectChat (getOrCreateDirectChat s a b n1).2 b a n2).2
      = (getOrCreateDirectChat s a b n1).2 ∧
    (getOrCreateDirectChat (getOrCreateDirectChat s a b n1).2 a b n2).1
      = (getOrCreateDirectChat s a b n1).1 ∧
    (getOrCreateDirectChat (getOrCreateDirectChat s a b n1).2 a b n2).2
      = (getOrCreateDirectChat s a b n1).2 ∧
    ∃ ch, directChatsFor (getOrCreateDirectChat s a b n1).2 a b = [ch] ∧
      ch.id = (getOrCreateDirectChat s a b n1).1 := by
  cases hf : findDirectChat s a b with
  | some cid =>
    have h1 : getOrCreateDirectChat s a b n1 = (cid, s) := by
      unfold getOrCreateDirectChat
      rw [hf]
    have hba : findDirectChat s b a = some cid := by
      rw [findDirectChat_comm s b a]
      exact hf
    have h2 : getOrCreateDirectChat s b a n2 = (cid, s) := by
      unfold getOrCreateDirectChat
      rw [hba]
    have h3 : getOrCreateDirectChat s a b n2 = (cid, s) := by
      unfold getOrCreateDirectChat
      rw [hf]
    obtain ⟨ch0, hch0, hid⟩ := Option.map_eq_some'.mp
      (by unfold findDirectChat at hf; exact hf)
    refine ⟨?_, ?_, ?_, ?_, ⟨ch0, ?_, ?_⟩⟩
    · simp [h1, h2]
    · simp [h1, h2]
    · simp [h1, h3]
    · simp [h1, h3]
    · simp only [h1]
      exact directChatsFor_found s a b ch0 hch0 hdedup
    · simp [h1, hid]
  | none =>
    have h1 : getOrCreateDirectChat s a b n1
        = (freshChatId s, createDirectStore s a b n1) := by
      unfold getOrCreateDirectChat
      rw [hf]
    have hk : findDirectChat (createDirectStore s a b n1) a b
        = some (freshChatId s) := findDirectChat_create s a b n1 hf
    have hk2 : findDirectChat (createDirectStore s a b n1) b a
        = some (freshChatId s) := by
      rw [findDirectChat_comm]
      exact hk
    have h2 : getOrCreateDirectChat (createDirectStore s a b n1) b a n2
        = (freshChatId s, createDirectStore s a b n1) := by
      unfold getOrCreateDirectChat
      rw [hk2]
    have h3 : getOrCreateDirectChat (createDirectStore s a b n1) a b n2
        = (freshChatId s, createDirectStore s a b n1) := by
      unfold getOrCreateDirectChat
      rw [hk]
    refine ⟨?_, ?_, ?_, ?_, ⟨newDirectChatRow s a n1, ?_, ?_⟩⟩
    · simp [h1, h2]
    · simp [h1, h2]
    · simp [h1, h3]
    · simp [h1, h3]
    · simp only [h1]
      exact directChatsFor_create s a b n1 hf
    · simp [h1, newDirectChatRow]

theorem C4_direct_chat_converges_witness :
    (1 : UserId) ≠ 2 ∧
    (directChatsFor storeEx 1 2).length ≤ 1 ∧
    (getOrCreateDirectChat (getOrCreateDirectChat storeEx 1 2 10).2 2 1 11).1
      = (getOrCreateDirectChat storeEx 1 2 10).1 :=
  ⟨by decide, by decide,
   (C4_direct_chat_converges storeEx 1 2 10 11 (by decide) (by decide)).1⟩

theorem keyLtB_iff (x y : Nat × Nat) :
    keyLtB x y = true ↔ (x.1 < y.1 ∨ (x.1 = y.1 ∧ x.2 < y.2)) := by
  unfold keyLtB
  simp

theorem keyLtB_irrefl (x : Nat × Nat) : keyLtB x x = false := by
  rw [← Bool.not_eq_true, keyLtB_iff]
  omega

theorem keyLtB_asymm (x y : Nat × Nat) (h : keyLtB x y = true) :
    keyLtB y x = false := by
  rw [keyLtB_iff] at h
  rw [← Bool.not_eq_true, keyLtB_iff]
  omega

theorem keyLtB_trans (x y z : Nat × Nat) (h1 : keyLtB x y = true)
    (h2 : keyLtB y z = true) : keyLtB x z = true := by
  rw [keyLtB_iff] at h1 h2 ⊢
  omega

theorem keyLtB_lt_of_ge (x y z : Nat × Nat) (h1 : keyLtB x z = true)
    (h2 : keyLtB y z = false) : keyLtB x y = true := by
  rw [keyLtB_iff] at h1 ⊢
  rw [← Bool.not_eq_true, keyLtB_iff] at h2
  omega

theorem keyLtB_of_not (x y : Nat × Nat) (h : keyLtB x y = false)
    (hne : x ≠ y) : keyLtB y x = true := by
  obtain ⟨x1, x2⟩ := x
  obtain ⟨y1, y2⟩ := y
  rw [Ne, Prod.mk.injEq, not_and_or] at hne
  rw [← Bool.not_eq_true, keyLtB_iff] at h
  rw [keyLtB_iff]
  dsimp only at h hne ⊢
  omega

theorem mem_insertDesc (m : MessageRow) (l : List MessageRow)
    (a : MessageRow) (h : a ∈ insertDesc m l) : a = m ∨ a ∈ l := by
  induction l with
  | nil =>
    rw [insertDesc, List.mem_singleton] at h
    exact Or.inl h
  | cons x xs ih =>
    rw [insertDesc] at h
    split at h
    · rw [List.mem_cons] at h
      rcases h with h | h
      · exact Or.inr (by rw [h]; exact List.mem_cons_self x xs)
      · rcases ih h with h | h
        · exact Or.inl h
        · exact Or.inr (List.mem_cons_of_mem x h)
    · rw [List.mem_cons] at h
      exact h

theorem pairwise_insertDesc (m : MessageRow) (l : List MessageRow)
    (h : l.Pairwise (fun x y => keyLtB (msgKey x) (msgKey y) = false)) :
    (insertDesc m l).Pairwise
      (fun x y => keyLtB (msgKey x) (msgKey y) = false) := by
  induction l with
  | nil => exact List.pairwise_singleton _ m
  | cons x xs ih =>
    rw [List.pairwise_cons] at h
    obtain ⟨hx, hxs⟩ := h
    rw [insertDesc]
    split
    · next hlt =>
      rw [List.pairwise_cons]
      refine ⟨?_, ih hxs⟩
      intro a ha
      rcases mem_insertDesc m xs a ha with rfl | ha
      · exact keyLtB_asymm _ _ hlt
      · exact hx a ha
    · next hge =>
      have hmx : keyLtB (msgKey m) (msgKey x) = false := by
        rw [← Bool.not_eq_true]
        exact hge
      rw [List.pairwise_cons]
      refine ⟨?_, List.pairwise_cons.mpr ⟨hx, hxs⟩⟩
      intro a ha
      rw [List.mem_cons] at ha
      rcases ha with rfl | ha
      · exact hmx
      · rw [← Bool.not_eq_true]
        intro hma
        have hcon := keyLtB_lt_of_ge (msgKey m) (msgKey x) (msgKey a)
          hma (hx a ha)
        rw [hcon] at hmx
        cases hmx

theorem perm_insertDesc (m : MessageRow) (l : List MessageRow) :
    List.Perm (insertDesc m l) (m :: l) := by
  induction l with
  | nil => exact List.Perm.refl _
  | cons x xs ih =>
    rw [insertDesc]
    split
    · exact List.Perm.trans (List.Perm.cons x ih) (List.Perm.swap m x xs)
    · exact List.Perm.refl _

theorem pairwise_sortDesc (l : List MessageRow) :
    (sortDesc l).Pairwise
      (fun x y => keyLtB (msgKey x) (msgKey y) = false) := by
  induction l with
  | nil => exact List.Pairwise.nil
  | cons x xs ih => exact pairwise_insertDesc x (sortDesc xs) ih

theorem perm_sortDesc (l : List MessageRow) :
    List.Perm (sortDesc l) l := by
  induction l with
  | nil => exact List.Perm.refl _
  | cons x xs ih =>
    exact List.Perm.trans (perm_insertDesc x (sortDesc xs))
      (List.Perm.cons x ih)

theorem pairwise_combine {α : Type} {R S T : α → α → Prop} (l : List α)
    (hr : l.Pairwise R) (hs : l.Pairwise S)
    (h : ∀ a b, R a b → S a b → T a b) : l.Pairwise T := by
  induction l with
  | nil => exact List.Pairwise.nil
  | cons x xs ih =>
    rw [List.pairwise_cons] at hr hs ⊢
    exact ⟨fun a ha => h x a (hr.1 a ha) (hs.1 a ha), ih hr.2 hs.2⟩

theorem keys_distinct_of_ids (l : List MessageRow)
    (h : l.Pairwise (fun x y => x.id ≠ y.id)) :
    l.Pairwise (fun x y => msgKey x ≠ msgKey y) := by
  refine h.imp ?_
  intro a b hab hk
  exact hab (congrArg Prod.snd hk)

theorem strictDesc_sortDesc (l : List MessageRow)
    (hkeys : l.Pairwise (fun x y => msgKey x ≠ msgKey y)) :
    StrictDesc (sortDesc l) := by
  have hp := pairwise_sortDesc l
  have hkeys' : (sortDesc l).Pairwise
      (fun x y => msgKey x ≠ msgKey y) := by
    refine (List.Perm.pairwise_iff ?_ (perm_sortDesc l)).mpr hkeys
    intro a b hab
    exact hab.symm
  exact pairwise_combine (sortDesc l) hp hkeys'
    (fun a b h1 h2 => keyLtB_of_not (msgKey a) (msgKey b) h1 h2)

theorem mem_of_lastOf (l : List MessageRow) (z : MessageRow)
    (h : lastOf l = some z) : z ∈ l := by
  induction l with
  | nil => cases h
  | cons x xs ih =>
    cases xs with
    | nil =>
      simp only [lastOf, Option.some.injEq] at h
      rw [← h]
      exact List.mem_singleton_self x
    | cons y ys =>
      simp only [lastOf] at h
      exact List.mem_cons_of_mem x (ih h)

theorem lastOf_isSome (l : List MessageRow) (h : l ≠ []) :
    ∃ z, lastOf l = some z := by
  induction l with
  | nil => exact absurd rfl h
  | cons x xs ih =>
    cases xs with
    | nil => exact ⟨x, rfl⟩
    | cons y ys =>
      obtain ⟨z, hz⟩ := ih (by intro hh; cases hh)
      exact ⟨z, by simp only [lastOf]; exact hz⟩

theorem filter_subpred {α : Type} (p q : α → Bool) (l : List α)
    (h : ∀ a, p a = true → q a = true) :
    (l.filter q).filter p = l.filter p := by
  induction l with
  | nil => rfl
  | cons x xs ih =>
    cases hq : q x
    · cases hp : p x
      · simp only [List.filter_cons, hq, hp, Bool.false_eq_true, if_false, ih]
      · exact absurd (h x hp) (by rw [hq]; exact Bool.false_ne_true)
    · cases hp : p x
      · simp only [List.filter_cons, hq, hp, Bool.false_eq_true, if_false,
          if_true, ih]
      · simp only [List.filter_cons, hq, hp, if_true, ih]

theorem filter_lt_lastOf (r : List MessageRow) (hl : StrictDesc r) :
    ∀ (k : Nat), 0 < k → ∀ z, lastOf (r.take k) = some z →
      r.filter (curPred (some (msgKey z))) = r.drop k := by
  induction r with
  | nil =>
    intro k hk z hz
    rw [List.take_nil] at hz
    cases hz
  | cons x xs ih =>
    intro k hk z hz
    rw [StrictDesc, List.pairwise_cons] at hl
    obtain ⟨hx, hxs⟩ := hl
    cases k with
    | zero => exact absurd hk (Nat.lt_irrefl 0)
    | succ k' =>
      rw [List.take_succ_cons] at hz
      cases hts : xs.take k' with
      | nil =>
        rw [hts] at hz
        simp only [lastOf, Option.some.injEq] at hz
        subst hz
        have hdk : xs.drop k' = xs := by
          cases k' with
          | zero => rfl
          | succ n =>
            cases xs with
            | nil => rfl
            | cons a as => rw [List.take_succ_cons] at hts; cases hts
        have hxs_all : xs.filter (curPred (some (msgKey x))) = xs := by
          rw [List.filter_eq_self]
          intro a ha
          simp only [curPred]
          exact hx a ha
        rw [List.drop_succ_cons, hdk, List.filter_cons]
        simp only [curPred, keyLtB_irrefl, Bool.false_eq_true, if_false]
        exact hxs_all
      | cons y ys =>
        rw [hts] at hz
        simp only [lastOf] at hz
        rw [← hts] at hz
        have hk' : 0 < k' := by
          cases k' with
          | zero => rw [List.take_zero] at hts; cases hts
          | succ n => exact Nat.succ_pos n
        have hdrop := ih hxs k' hk' z hz
        have hzmem : z ∈ xs := List.take_subset k' xs (mem_of_lastOf _ z hz)
        have hxf : keyLtB (msgKey x) (msgKey z) = false :=
          keyLtB_asymm _ _ (hx z hzmem)
        rw [List.drop_succ_cons, List.filter_cons]
        simp only [curPred, hxf, Bool.false_eq_true, if_false]
        exact hdrop

theorem pagesFrom_take (l : List MessageRow) (hl : StrictDesc l) :
    ∀ (sch : List Nat), (∀ k ∈ sch, 0 < k) → ∀ cur,
      pagesFrom l cur sch = (l.filter (curPred cur)).take sch.sum := by
  intro sch
  induction sch with
  | nil => intro _ cur; rfl
  | cons k ks ih =>
    intro hpos cur
    have hk : 0 < k := hpos k (List.mem_cons_self k ks)
    have hpos' : ∀ j ∈ ks, 0 < j :=
      fun j hj => hpos j (List.mem_cons_of_mem k hj)
    have hr : StrictDesc (l.filter (curPred cur)) :=
      List.Pairwise.filter _ hl
    rw [pagesFrom]
    cases hz : lastOf (pageOf l cur k) with
    | none =>
      have hre : l.filter (curPred cur) = [] := by
        cases hrc : l.filter (curPred cur) with
        | nil => rfl
        | cons a as =>
          exfalso
          have htk : pageOf l cur k = a :: as.take (k - 1) := by
            rw [pageOf, hrc]
            cases k with
            | zero => exact absurd hk (Nat.lt_irrefl 0)
            | succ n => simp [List.take_succ_cons]
          obtain ⟨w, hw⟩ := lastOf_isSome (a :: as.take (k - 1))
            (by intro hh; cases hh)
          rw [htk, hw] at hz
          cases hz
      rw [hre, List.take_nil]
    | some z =>
      have hzr : z ∈ (l.filter (curPred cur)).take k :=
        mem_of_lastOf _ z (by rw [pageOf] at hz; exact hz)
      have hzr' : z ∈ l.filter (curPred cur) := List.take_subset k _ hzr
      have hzc : curPred cur z = true := (List.mem_filter.mp hzr').2
      have himp : ∀ a, curPred (some (msgKey z)) a = true →
          curPred cur a = true := by
        intro a ha
        cases cur with
        | none => rfl
        | some b =>
          simp only [curPred] at ha hzc ⊢
          exact keyLtB_trans (msgKey a) (msgKey z) b ha hzc
      have hstep : l.filter (curPred (some (msgKey z)))
          = (l.filter (curPred cur)).drop k := by
        rw [← filter_subpred (curPred (some (msgKey z))) (curPred cur) l himp]
        exact filter_lt_lastOf (l.filter (curPred cur)) hr k hk z
          (by rw [pageOf] at hz; exact hz)
      show pageOf l cur k ++ pagesFrom l (some (msgKey z)) ks
          = (l.filter (curPred cur)).take ((k :: ks).sum)
      rw [ih hpos' (some (msgKey z)), hstep, List.sum_cons, List.take_add]
      rw [pageOf]

theorem filter_curPred_none (l : List MessageRow) :
    l.filter (curPred none) = l := by
  induction l with
  | nil => rfl
  | cons x xs ih => simp [List.filter_cons, curPred, ih]

/-- C7 (confirmed): the full message history of a chat is strictly
descending by (created_at, id), one cursorless page of size `limit` is
exactly the first `limit` messages, paging through any schedule of
positive page sizes (passing each page's oldest message as the next
`before` cursor) yields exactly the first sum-of-sizes messages — so any
two schedules with the same total agree and paging is restartable — and
any schedule whose total covers the chat returns the entire history. -/
theorem C7_listMessages_paging (s : Store) (cid : ChatId)
    (hids : (chatMsgs s cid).Pairwise (fun x y => x.id ≠ y.id)) :
    StrictDesc (chatHistory s cid) ∧
    (∀ limit, listMessages s cid none limit
      = (chatHistory s cid).take limit) ∧
    (∀ sch, (∀ k ∈ sch, 0 < k) →
      pagesFrom (chatHistory s cid) none sch
        = (chatHistory s cid).take sch.sum) ∧
    (∀ sch, (∀ k ∈ sch, 0 < k) →
      (chatHistory s cid).length ≤ sch.sum →
      pagesFrom (chatHistory s cid) none sch = chatHistory s cid) := by
  have hsd : StrictDesc (chatHistory s cid) :=
    strictDesc_sortDesc _ (keys_distinct_of_ids _ hids)
  have hall : ∀ sch, (∀ k ∈ sch, 0 < k) →
      pagesFrom (chatHistory s cid) none sch
        = (chatHistory s cid).take sch.sum := by
    intro sch hpos
    rw [pagesFrom_take (chatHistory s cid) hsd sch hpos none,
      filter_curPred_none]
  refine ⟨hsd, ?_, hall, ?_⟩
  · intro limit
    rw [listMessages, pageOf, filter_curPred_none]
  · intro sch hpos hlen
    rw [hall sch hpos]
    exact List.take_of_length_le hlen

theorem C7_listMessages_paging_witness :
    (chatMsgs storeMsgs 1).Pairwise (fun x y => x.id ≠ y.id) ∧
    pagesFrom (chatHistory storeMsgs 1) none [2, 2]
      = (chatHistory storeMsgs 1).take ([2, 2].sum) :=
  ⟨by decide,
   (C7_listMessages_paging storeMsgs 1 (by decide)).2.2.1 [2, 2] (by decide)⟩

theorem C10_integrity_preserved_witness :
    integrity storeEx ∧
    applyOp storeEx (.deleteChat 1) = some (deleteChatCascade storeEx 1) ∧
    integrity (deleteChatCascade storeEx 1) :=
  ⟨by decide, rfl,
   C10_integrity_preserved storeEx (deleteChatCascade storeEx 1)
     (.deleteChat 1) (by decide) rfl⟩

end OfficeChat
